import Mathlib

/-!
Verification of the docx-validator document validation pipeline.

This development shallowly embeds the core of the repository:
`docx_tex_validator/validator.py` (the validation engine: context setup,
per-requirement scoring, response parsing, weighted aggregation),
`docx_tex_validator/parsers/__init__.py` (extractor registry / detection),
`docx_tex_validator/parsers/latex_parser.py` (markup-source extraction),
and `docx_tex_validator/parsers/docx_parser.py` (word-document extraction).

Python string operations used by the source (`split`, `in`, `upper`,
`strip`, `float()`) are modelled on `List Char` for ASCII inputs, which is
the alphabet the markers and extensions live in.
-/

/-- Whitespace characters stripped by Python `str.strip()` (ASCII subset). -/
def pyIsSpace (c : Char) : Bool :=
  c = ' ' || c = '\t' || c = '\n' || c = '\r' || c = '\x0b' || c = '\x0c'

/-- Python `str.strip()` on a character list: drop whitespace at both ends. -/
def pyStripChars (s : List Char) : List Char :=
  ((s.dropWhile pyIsSpace).reverse.dropWhile pyIsSpace).reverse

/-- Python `str.strip(chars)`: drop characters in `cs` at both ends. -/
def pyStripSetChars (cs : List Char) (s : List Char) : List Char :=
  ((s.dropWhile (cs.contains ·)).reverse.dropWhile (cs.contains ·)).reverse

/-- Python `sub in s` substring test (for a fixed needle `sub`). -/
def pyContainsChars (sub : List Char) : List Char → Bool
  | [] => sub.isEmpty
  | c :: rest => sub.isPrefixOf (c :: rest) || pyContainsChars sub rest

/-- Fueled worker for Python `str.split(sep)` with a non-empty separator:
split at every non-overlapping occurrence of `sep`, left to right. -/
def pySplitCharsAux (sep : List Char) : Nat → List Char → List Char → List (List Char)
  | 0, acc, s => [acc.reverse ++ s]
  | fuel + 1, acc, s =>
    if !sep.isEmpty && sep.isPrefixOf s then
      acc.reverse :: pySplitCharsAux sep fuel [] (s.drop sep.length)
    else
      match s with
      | [] => [acc.reverse]
      | c :: rest => pySplitCharsAux sep fuel (c :: acc) rest

/-- Python `s.split(sep)` for a non-empty separator. -/
def pySplitChars (sep s : List Char) : List (List Char) :=
  pySplitCharsAux sep (s.length + 1) [] s

/-- Python `str.upper()` (ASCII). -/
def pyUpperChars (s : List Char) : List Char := s.map Char.toUpper

/-- Python `str.lower()` (ASCII). -/
def pyLowerChar (c : Char) : Char :=
  if 65 ≤ c.toNat ∧ c.toNat ≤ 90 then Char.ofNat (c.toNat + 32) else c

/-- Python `str.lower()` on a character list (ASCII). -/
def pyLowerChars (s : List Char) : List Char := s.map pyLowerChar

/-- String wrapper for `pyContainsChars`. -/
def pyContains (s sub : String) : Bool := pyContainsChars sub.data s.data

/-- String wrapper for `pySplitChars`. -/
def pySplit (s sep : String) : List String :=
  (pySplitChars sep.data s.data).map List.asString

/-- String wrapper for `pyUpperChars`. -/
def pyUpper (s : String) : String := (pyUpperChars s.data).asString

/-- String wrapper for `pyLowerChars`. -/
def pyLower (s : String) : String := (pyLowerChars s.data).asString

/-- String wrapper for `pyStripChars`. -/
def pyStrip (s : String) : String := (pyStripChars s.data).asString

/-- String wrapper for `pyStripSetChars` (Python `s.strip(cs)`). -/
def pyStripSet (cs s : String) : String := (pyStripSetChars cs.data s.data).asString

/-- Result of Python `float()`: a finite value (as an exact rational) or one of
the non-finite IEEE values, which Python parses from "inf"/"infinity"/"nan". -/
inductive PyFloat where
  | finite (q : ℚ)
  | inf
  | neginf
  | nan
deriving DecidableEq, Repr

/-- Value of a digit string. -/
def digitsToNat (ds : List Char) : Nat :=
  ds.foldl (fun n c => 10 * n + (c.toNat - 48)) 0

/-- Parse an unsigned decimal mantissa (`123`, `123.45`, `.45`, `123.`),
returning its value and the unconsumed input. -/
def parseDecimalCore (s : List Char) : Option (ℚ × List Char) :=
  let ip := s.takeWhile Char.isDigit
  let r1 := s.drop ip.length
  match r1 with
  | '.' :: r2 =>
    let fp := r2.takeWhile Char.isDigit
    if ip.isEmpty && fp.isEmpty then none
    else some (((digitsToNat (ip ++ fp) : ℚ) / (10 : ℚ) ^ fp.length, r2.drop fp.length))
  | _ => if ip.isEmpty then none else some ((digitsToNat ip : ℚ), r1)

/-- Python `float(s)` on a character list: optional surrounding whitespace and
sign, then `inf`/`infinity`/`nan` (case-insensitive) or a decimal literal with
optional exponent. `none` models the ValueError branch. (Digit-group
underscores, which Python also accepts, are not modelled.) -/
def pyFloatOfChars (s0 : List Char) : Option PyFloat :=
  let s1 := pyStripChars s0
  let signed : Int × List Char :=
    match s1 with
    | '+' :: r => (1, r)
    | '-' :: r => (-1, r)
    | r => (1, r)
  let sign := signed.1
  let s2 := signed.2
  let low := pyLowerChars s2
  if low = "inf".data ∨ low = "infinity".data then
    some (if sign = 1 then .inf else .neginf)
  else if low = "nan".data then
    some .nan
  else
    match parseDecimalCore s2 with
    | none => none
    | some (m, rest) =>
      match rest with
      | [] => some (.finite (sign * m))
      | e :: r2 =>
        if e = 'e' ∨ e = 'E' then
          let esigned : Int × List Char :=
            match r2 with
            | '+' :: r => (1, r)
            | '-' :: r => (-1, r)
            | r => (1, r)
          let ed := esigned.2.takeWhile Char.isDigit
          if ed.isEmpty || !(esigned.2.drop ed.length).isEmpty then none
          else some (.finite ((sign * m) * (10 : ℚ) ^ (esigned.1 * (digitsToNat ed : Int))))
        else none

/-- Python `float(s)` on a string. -/
def pyFloat (s : String) : Option PyFloat := pyFloatOfChars s.data

/-- `ValidationSpec` (validator.py lines 19–36): one named, weighted
requirement. `score` defaults to 1.0. -/
structure ValidationSpec where
  name : String
  description : String
  category : Option String := none
  score : ℚ := 1
deriving DecidableEq, Repr

/-- `ValidationResult` (validator.py lines 39–56): result of one check. The
pydantic bound `0.0 <= confidence <= 1.0` is enforced at construction by
`mkValidationResult`, mirroring model validation. -/
structure ValidationResult where
  spec_name : String
  passed : Bool
  confidence : ℚ
  reasoning : Option String
deriving DecidableEq, Repr

/-- pydantic construction of a `ValidationResult`: raises a ValidationError
when the confidence value violates its `ge=0.0, le=1.0` bound (non-finite
values fail the comparisons as well). -/
def mkValidationResult (specName : String) (passed : Bool) (confidence : PyFloat)
    (reasoning : Option String) : Except String ValidationResult :=
  match confidence with
  | .finite q =>
    if 0 ≤ q ∧ q ≤ 1 then .ok ⟨specName, passed, q, reasoning⟩
    else .error "1 validation error for ValidationResult: confidence out of bounds"
  | _ => .error "1 validation error for ValidationResult: confidence out of bounds"

/-- Python `s.split("\n")[0]`: the first line of `s`. -/
def firstLine (s : String) : String := (pySplit s "\n").headD ""

/-- validator.py lines 372–375 (and identically 476–479): the `passed`
expression. The `.error` branch models the IndexError raised when "PASS"
occurs in the uppercased text but no "Result:" marker is present, so that
`split("Result:")[1]` indexes past the single-element list; the conjunction
short-circuits, so without "PASS" no exception is possible. -/
def computePassed (text : String) : Except String Bool :=
  if pyContains (pyUpper text) "PASS" then
    match (pySplit text "Result:").get? 1 with
    | none => .error "IndexError: list index out of range"
    | some seg => .ok (!pyContains (pyUpper (firstLine seg)) "FAIL")
  else
    .ok false

/-- validator.py lines 377–384 (and 481–488): confidence extraction, keeping
the 0.8 default when the marker is absent or `float()` raises. -/
def computeConfidence (text : String) : PyFloat :=
  if pyContains text "Confidence:" then
    match pyFloat (pyStrip (firstLine (((pySplit text "Confidence:").get? 1).getD ""))) with
    | some f => f
    | none => .finite (4/5)
  else .finite (4/5)

/-- validator.py lines 386–392 (and 490–496): reasoning extraction; `none`
when the "Reasoning:" marker is absent. -/
def computeReasoning (text : String) : Option String :=
  if pyContains text "Reasoning:" then
    some (pyStrip (((pySplit text "Reasoning:").get? 1).getD ""))
  else none

/-- The `reasoning or response_text` argument of the result construction
(validator.py 398 and 502): the extracted reasoning unless it is falsy
(`None` or empty), in which case the whole response text. -/
def finalReasoning (text : String) : String :=
  match computeReasoning text with
  | some r => if r = "" then text else r
  | none => text

/-- Body of the response-parsing try-block, shared verbatim between
`_validate_spec_with_context` (371–401) and `_validate_spec` (475–503):
compute `passed`, `confidence`, `reasoning`, then construct the pydantic
result; the first raised exception (IndexError or ValidationError) escapes
to the per-requirement handler. -/
def parseResponseText (specName text : String) : Except String ValidationResult :=
  match computePassed text with
  | .error e => .error e
  | .ok passed =>
    mkValidationResult specName passed (computeConfidence text) (some (finalReasoning text))

/-- The per-requirement except-handler (validator.py 403–412 and 505–512):
synthesize a failed, zero-confidence result carrying the error description. -/
def errorResult (specName err : String) : ValidationResult :=
  ⟨specName, false, 0, some ("Validation error: " ++ err)⟩

/-- Total parsing of one Judge response: the try-block plus its handler. -/
def parseJudgment (specName text : String) : ValidationResult :=
  match parseResponseText specName text with
  | .ok r => r
  | .error e => errorResult specName e

/-- Conversation messages exchanged with the Judge. The engine threads the
message history as an opaque list (pydantic-ai `all_messages()` output). -/
abbrev Msg := String

/-- One prompt sent to the Judge, kept structural: each constructor records
which f-string template of validator.py built the prompt and which payloads
were interpolated into it. `renderPrompt` recovers the prompt text. -/
inductive PromptKind where
  | contextSetup (docJson : String)
  | scoringWithContext (spec : ValidationSpec)
  | scoringLegacy (docJson : String) (spec : ValidationSpec)
deriving DecidableEq, Repr

/-- The category line of the context scoring template (validator.py 336):
`f"Category: {spec.category}" if spec.category else ""`; `None` and the empty
string are both falsy. -/
def categoryLine : Option String → String
  | some c => if c = "" then "" else "Category: " ++ c
  | none => ""

/-- Prompt text of each template: the context-setup f-string (259–269), the
context scoring f-string (331–347) and the legacy scoring f-string (433–451),
with Python line continuations resolved. -/
def renderPrompt : PromptKind → String
  | .contextSetup docJson =>
    "\nI will provide you with a document structure to analyze. After I provide the document, I will ask you a series of validation questions about it. Please analyze and remember this document structure.\n\nDocument Structure:\n"
      ++ docJson
      ++ "\n\nPlease confirm you have received and understood the document structure by responding with: \"Document structure received and ready for validation.\"\n"
  | .scoringWithContext spec =>
    "\nNow validate this requirement:\n\nRequirement Name: " ++ spec.name
      ++ "\nDescription: " ++ spec.description ++ "\n" ++ categoryLine spec.category
      ++ "\n\nDoes the document meet this requirement? Respond with:\n1. \"PASS\" or \"FAIL\"\n2. A confidence score between 0.0 and 1.0\n3. A brief explanation of your reasoning\n\nFormat your response as:\nResult: PASS/FAIL\nConfidence: 0.0-1.0\nReasoning: Your explanation here\n"
  | .scoringLegacy docJson spec =>
    "\nAnalyze the following document structure and determine if it meets this requirement:\n\nRequirement Name: " ++ spec.name
      ++ "\nDescription: " ++ spec.description ++ "\n\nDocument Structure:\n" ++ docJson
      ++ "\n\nDoes the document meet this requirement? Respond with:\n1. \"PASS\" or \"FAIL\"\n2. A confidence score between 0.0 and 1.0\n3. A brief explanation of your reasoning\n\nFormat your response as:\nResult: PASS/FAIL\nConfidence: 0.0-1.0\nReasoning: Your explanation here\n"

/-- A prompt embeds the serialized document structure when its template
interpolates the `json.dumps(doc_structure)` payload. -/
def promptEmbedsDoc (docJson : String) : PromptKind → Prop
  | .contextSetup d => d = docJson
  | .scoringWithContext _ => False
  | .scoringLegacy d _ => d = docJson

instance (docJson : String) (k : PromptKind) : Decidable (promptEmbedsDoc docJson k) := by
  cases k <;> simp [promptEmbedsDoc] <;> infer_instance

/-- A record of one `backend.run_sync` invocation: the prompt and the
`message_history` argument (`none` when the keyword was not passed). -/
structure JudgeCall where
  prompt : PromptKind
  history : Option (List Msg)
deriving DecidableEq, Repr

/-- What a successful `run_sync` returns, as the engine consumes it:
`response.data` coerced to text, and `response.all_messages()`. -/
structure JudgeResponse where
  data : String
  allMessages : List Msg
deriving DecidableEq, Repr

/-- The Judge capability: each call either yields a response or raises
(`.error` carries `str(e)`). One validation run is deterministic relative to
a fixed judge function. -/
abbrev Judge := PromptKind → Option (List Msg) → Except String JudgeResponse

/-- `_setup_document_context` (validator.py 243–302): send the serialized
structure once with no history; on success return `all_messages()`, on any
exception log and return the empty history (triggering fallback mode).
Also returns the trace of judge calls made. -/
def setupDocumentContext (judge : Judge) (docJson : String) :
    List Msg × List JudgeCall :=
  match judge (.contextSetup docJson) none with
  | .ok resp => (resp.allMessages, [⟨.contextSetup docJson, none⟩])
  | .error _ => ([], [⟨.contextSetup docJson, none⟩])

/-- `_validate_spec` (validator.py 414–512): legacy per-requirement scoring
embedding the full document, no message history; exceptions (from the call,
the parsing, or result construction) yield the synthesized failed result. -/
def validateSpec (judge : Judge) (docJson : String) (spec : ValidationSpec) :
    ValidationResult × List JudgeCall :=
  match judge (.scoringLegacy docJson spec) none with
  | .error e => (errorResult spec.name e, [⟨.scoringLegacy docJson spec, none⟩])
  | .ok resp =>
    match parseResponseText spec.name resp.data with
    | .ok r => (r, [⟨.scoringLegacy docJson spec, none⟩])
    | .error e => (errorResult spec.name e, [⟨.scoringLegacy docJson spec, none⟩])

/-- `_validate_spec_with_context` (validator.py 304–412): with an empty
history fall back to the legacy method for this spec; otherwise send the
context scoring prompt with the current history. On success the returned
history is `response.all_messages()`; on any exception the result is the
synthesized failure and the pre-call history is carried forward unchanged. -/
def validateSpecWithContext (judge : Judge) (spec : ValidationSpec)
    (messageHistory : List Msg) (docJson : String) :
    (ValidationResult × List Msg) × List JudgeCall :=
  if messageHistory.isEmpty then
    let (r, calls) := validateSpec judge docJson spec
    ((r, messageHistory), calls)
  else
    match judge (.scoringWithContext spec) (some messageHistory) with
    | .error e =>
      ((errorResult spec.name e, messageHistory),
        [⟨.scoringWithContext spec, some messageHistory⟩])
    | .ok resp =>
      match parseResponseText spec.name resp.data with
      | .ok r => ((r, resp.allMessages), [⟨.scoringWithContext spec, some messageHistory⟩])
      | .error e =>
        ((errorResult spec.name e, messageHistory),
          [⟨.scoringWithContext spec, some messageHistory⟩])

/-- The per-specification loop of `validate` (validator.py 205–214), threading
the message history through context-mode calls. -/
def validateLoop (judge : Judge) (docJson : String) (useContext : Bool) :
    List ValidationSpec → List Msg → (List ValidationResult × List Msg) × List JudgeCall
  | [], history => (([], history), [])
  | spec :: rest, history =>
    if useContext then
      let step := validateSpecWithContext judge spec history docJson
      let next := validateLoop judge docJson useContext rest step.1.2
      ((step.1.1 :: next.1.1, next.1.2), step.2 ++ next.2)
    else
      let step := validateSpec judge docJson spec
      let next := validateLoop judge docJson useContext rest history
      ((step.1 :: next.1.1, next.1.2), step.2 ++ next.2)

/-- `ValidationReport` (validator.py 59–88). -/
structure ValidationReport where
  file_path : String
  results : List ValidationResult
  total_specs : Nat
  passed_count : Nat
  failed_count : Nat
  score : ℚ
  total_score_available : ℚ
  achieved_score : ℚ
deriving DecidableEq, Repr

/-- The `result_map` dict comprehension (validator.py 222): a Python dict
keyed by `spec_name`, where a later result overwrites an earlier one with the
same name; lookup therefore finds the last matching result. -/
def resultMap (results : List ValidationResult) (name : String) : Option ValidationResult :=
  results.reverse.find? (fun r => r.spec_name = name)

/-- `DocxValidator.validate` (validator.py 158–241) after extractor selection
and extraction: set up the context, score every specification in order, then
aggregate counts and weighted scores. Returns the report plus the judge-call
trace. `doc_structure` enters only through its serialization `docJson`
(`json.dumps(doc_structure, indent=2, default=str)`). -/
def validate (judge : Judge) (filePath docJson : String)
    (specifications : List ValidationSpec) : ValidationReport × List JudgeCall :=
  let setup := setupDocumentContext judge docJson
  let messageHistory := setup.1
  let useContext := !messageHistory.isEmpty
  let run := validateLoop judge docJson useContext specifications messageHistory
  let results := run.1.1
  let passedCount := (results.filter (·.passed)).length
  let totalSpecs := specifications.length
  let totalScoreAvailable := (specifications.map (·.score)).sum
  let achievedScore :=
    ((specifications.filter
        (fun spec => ((resultMap results spec.name).map (·.passed)).getD false)).map
      (·.score)).sum
  let score := if totalScoreAvailable > 0 then achievedScore / totalScoreAvailable else 0
  (⟨filePath, results, totalSpecs, passedCount, totalSpecs - passedCount,
      score, totalScoreAvailable, achievedScore⟩,
    setup.2 ++ run.2)

/-- The closed set of registered extractors ('docx', 'html', 'latex'),
in the registration order of the `PARSERS` dict
(docx_tex_validator/parsers/__init__.py lines 16–20). -/
inductive ParserKind where
  | docx
  | html
  | latex
deriving DecidableEq, Repr

/-- Registration order of the `PARSERS` registry. -/
def parserRegistry : List ParserKind := [.docx, .html, .latex]

/-- `supports_extension` of each parser class (docx_parser.py 22–33,
html_parser.py 19–30, latex_parser.py 20–31): each lowercases its argument
and compares against its fixed extension list. -/
def supportsExtension (p : ParserKind) (extension : String) : Bool :=
  match p with
  | .docx => pyLower extension = ".docx"
  | .html => pyLower extension = ".html" ∨ pyLower extension = ".htm"
  | .latex => pyLower extension = ".tex" ∨ pyLower extension = ".latex"

deriving instance DecidableEq for Except

/-- Last index of `c` in a character list, if any. -/
def lastIndexOf (c : Char) (s : List Char) : Option Nat :=
  (s.reverse.indexOf? c).map (fun i => s.length - 1 - i)

/-- `PurePosixPath(file_path).name`: the final path component, with empty and
`.` components dropped (POSIX paths; drive/root handling not modelled). -/
def pathName (p : String) : String :=
  (((pySplit p "/").filter (fun comp => comp ≠ "" ∧ comp ≠ ".")).getLast?).getD ""

/-- `Path(file_path).suffix`: the extension of the final component — the part
from the last dot on, but only when that dot is neither the first nor the
last character of the name. -/
def pathSuffix (p : String) : String :=
  let name := (pathName p).data
  match lastIndexOf '.' name with
  | none => ""
  | some i => if 0 < i ∧ i + 1 < name.length then (name.drop i).asString else ""

/-- `_get_all_extensions` (parsers/__init__.py 82–91): probe the fixed
candidate list against every registered parser, keeping each supported
extension once. -/
def getAllExtensions : List String :=
  [".docx", ".html", ".htm", ".tex", ".latex"].filter
    (fun ext => parserRegistry.any (fun p => supportsExtension p ext))

/-- `detect_parser` (parsers/__init__.py 50–79): lowercase the path's
extension, return the first registered parser supporting it, else raise a
ValueError listing all supported extensions. -/
def detectParser (filePath : String) : Except String ParserKind :=
  let extension := pyLower (pathSuffix filePath)
  match parserRegistry.find? (fun p => supportsExtension p extension) with
  | some p => .ok p
  | none =>
    .error ("No parser found for file extension: " ++ extension
      ++ ". Supported extensions: " ++ String.intercalate ", " getAllExtensions)

/-- ASCII letter test (`[a-zA-Z]` of the `_clean_latex` regexes). -/
def isAsciiAlpha (c : Char) : Bool :=
  ('a' ≤ c ∧ c ≤ 'z') ∨ ('A' ≤ c ∧ c ≤ 'Z')

/-- Modelled from the spec: brace-matching argument reader used by the
TexSoup-backed lookups of latex_parser.py (the TexSoup library itself is an
external dependency, not part of src/). Reads up to the brace closing the
already-open group, tracking nesting; returns the content inside and the
remainder after the closing brace. -/
def readBalanced : Nat → Nat → List Char → List Char → Option (List Char × List Char)
  | 0, _, _, _ => none
  | _ + 1, _, _, [] => none
  | fuel + 1, depth, acc, c :: rest =>
    if c = '{' then readBalanced fuel (depth + 1) (c :: acc) rest
    else if c = '}' then
      if depth = 1 then some (acc.reverse, rest)
      else readBalanced fuel (depth - 1) (c :: acc) rest
    else readBalanced fuel depth (c :: acc) rest

/-- First index at which `pat` occurs in the list, if any. -/
def findIndexOfSub (pat : List Char) : Nat → List Char → Option Nat
  | 0, _ => none
  | fuel + 1, s =>
    if pat.isPrefixOf s then some 0
    else
      match s with
      | [] => none
      | _ :: rest => (findIndexOfSub pat fuel rest).map (· + 1)

/-- Modelled from the spec: `soup.find(name)` followed by `str(cmd.args[0])`
in latex_parser.py — the braced argument of the first occurrence of the
command `\name{...}` in the source, braces included. -/
def findCommandArgAux (pat : List Char) : Nat → List Char → Option (List Char)
  | 0, _ => none
  | fuel + 1, s =>
    if pat.isPrefixOf s then
      match readBalanced (s.length + 1) 1 [] (s.drop pat.length) with
      | some (inner, _) => some ('{' :: (inner ++ ['}']))
      | none => none
    else
      match s with
      | [] => none
      | _ :: rest => findCommandArgAux pat fuel rest

/-- The braced argument of the first `\name{...}` in `content`, if any. -/
def findCommandArg (name : String) (content : String) : Option String :=
  (findCommandArgAux ('\\' :: (name.data ++ ['{'])) (content.data.length + 1)
    content.data).map List.asString

/-- Modelled from the spec: `soup.find_all(name)` with `str(cmd.args[0])` —
the braced arguments of every occurrence of `\name{...}`, in order. -/
def findAllCommandArgsAux (pat : List Char) : Nat → List Char → List (List Char)
  | 0, _ => []
  | fuel + 1, s =>
    match s with
    | [] => []
    | _ :: rest =>
      if pat.isPrefixOf s then
        match readBalanced (s.length + 1) 1 [] (s.drop pat.length) with
        | some (inner, _) => ('{' :: (inner ++ ['}'])) :: findAllCommandArgsAux pat fuel rest
        | none => findAllCommandArgsAux pat fuel rest
      else findAllCommandArgsAux pat fuel rest

/-- All braced arguments of `\name{...}` occurrences in `content`. -/
def findAllCommandArgs (name : String) (content : String) : List String :=
  (findAllCommandArgsAux ('\\' :: (name.data ++ ['{'])) (content.data.length + 1)
    content.data).map List.asString

/-- Modelled from the spec: `soup.find_all(env)` for environments — the body
text between each `\begin{env}` and the next `\end{env}`. -/
def findEnvBodiesAux (beginPat endPat : List Char) : Nat → List Char → List (List Char)
  | 0, _ => []
  | fuel + 1, s =>
    match findIndexOfSub beginPat (s.length + 1) s with
    | none => []
    | some i =>
      let afterBegin := s.drop (i + beginPat.length)
      match findIndexOfSub endPat (afterBegin.length + 1) afterBegin with
      | none => []
      | some j =>
        afterBegin.take j ::
          findEnvBodiesAux beginPat endPat fuel (afterBegin.drop (j + endPat.length))

/-- Bodies of all `env` environments in `content`. -/
def findEnvBodies (env content : String) : List String :=
  (findEnvBodiesAux ("\\begin\x7b" ++ env ++ "\x7d").data ("\\end\x7b" ++ env ++ "\x7d").data
    (content.data.length + 1) content.data).map List.asString

/-- Shortest run of non-newline characters up to the next `}` (the
`(.*?)\}` tail of the `_clean_latex` patterns, with `.` not matching a
newline); fails when a newline or the end is reached first. -/
def takeToBrace : List Char → Option (List Char × List Char)
  | [] => none
  | c :: rest =>
    if c = '}' then some ([], rest)
    else if c = '\n' then none
    else (takeToBrace rest).map (fun p => (c :: p.1, p.2))

/-- `re.sub(re.escape(lit) + "(.*?)\}", r"\1", s)` for a literal command
prefix `lit` such as `\textbf{`: replace every non-overlapping match by the
captured group, scanning left to right (latex_parser.py 215–217). -/
def subLitAux (lit : List Char) : Nat → List Char → List Char
  | 0, s => s
  | fuel + 1, s =>
    match s with
    | [] => []
    | c :: rest =>
      if lit.isPrefixOf s then
        match takeToBrace (s.drop lit.length) with
        | some (inner, after) => inner ++ subLitAux lit fuel after
        | none => c :: subLitAux lit fuel rest
      else c :: subLitAux lit fuel rest

/-- `re.sub(r"\\[a-zA-Z]+\{(.*?)\}", r"\1", s)` (latex_parser.py 218):
any backslash command with one braced argument resolves to the argument. -/
def subCmdArgAux : Nat → List Char → List Char
  | 0, s => s
  | fuel + 1, s =>
    match s with
    | [] => []
    | c :: rest =>
      if c = '\\' then
        let letters := rest.takeWhile isAsciiAlpha
        if letters.isEmpty then c :: subCmdArgAux fuel rest
        else
          match rest.drop letters.length with
          | '{' :: r2 =>
            match takeToBrace r2 with
            | some (inner, after) => inner ++ subCmdArgAux fuel after
            | none => c :: subCmdArgAux fuel rest
          | _ => c :: subCmdArgAux fuel rest
      else c :: subCmdArgAux fuel rest

/-- `re.sub(r"\\[a-zA-Z]+", "", s)` (latex_parser.py 219): remaining
zero-argument backslash commands are deleted. -/
def subCmdBareAux : Nat → List Char → List Char
  | 0, s => s
  | fuel + 1, s =>
    match s with
    | [] => []
    | c :: rest =>
      if c = '\\' then
        let letters := rest.takeWhile isAsciiAlpha
        if letters.isEmpty then c :: subCmdBareAux fuel rest
        else subCmdBareAux fuel (rest.drop letters.length)
      else c :: subCmdBareAux fuel rest

/-- `LaTeXParser._clean_latex` (latex_parser.py 203–221): strip bold, italic
and emphasis wrappers to their contents, resolve any remaining one-argument
command to its argument, delete remaining bare commands, delete all braces,
and strip surrounding whitespace. -/
def cleanLatex (text : String) : String :=
  let t1 := subLitAux "\\textbf\x7b".data (text.data.length + 1) text.data
  let t2 := subLitAux "\\textit\x7b".data (t1.length + 1) t1
  let t3 := subLitAux "\\emph\x7b".data (t2.length + 1) t2
  let t4 := subCmdArgAux (t3.length + 1) t3
  let t5 := subCmdBareAux (t4.length + 1) t4
  let t6 := t5.filter (fun c => ¬ (c = '{' ∨ c = '}'))
  (pyStripChars t6).asString

/-- One extracted sectioning command (latex_parser.py 110–119). -/
structure LatexSection where
  type : String
  level : Nat
  text : String
deriving DecidableEq, Repr

/-- One extracted figure or table environment (caption + label). -/
structure LatexFloat where
  caption : String
  label : String
deriving DecidableEq, Repr

/-- One extracted equation environment (body with the label command removed,
plus the promoted label). -/
structure LatexEquation where
  content : String
  label : String
deriving DecidableEq, Repr

/-- The dictionary returned by `LaTeXParser._parse_latex` (latex_parser.py
188–201); the three optional metadata fields model the keys of the
`metadata` dict, present exactly when the corresponding command was found. -/
structure LatexStructure where
  file_path : String
  document_type : String
  document_class : Option String
  title : Option String
  author : Option String
  date : Option String
  sections : List LatexSection
  figures : List LatexFloat
  tables : List LatexFloat
  equations : List LatexEquation
  packages : List String
  has_bibliography : Bool
  citation_count : Nat
  raw_content : String
deriving DecidableEq, Repr

/-- Modelled from the spec: `equation.contents` of TexSoup — the children of
an equation environment as the text before the label command, the label
command itself, and the text after it (or the whole body when no label
command occurs). -/
def equationChildren (body : String) : List String :=
  match findIndexOfSub "\\label\x7b".data (body.data.length + 1) body.data with
  | none => [body]
  | some i =>
    match readBalanced (body.data.length + 1) 1 [] (body.data.drop (i + 7)) with
    | none => [body]
    | some (inner, after) =>
      [(body.data.take i).asString, ("\\label\x7b".data ++ inner ++ ['}']).asString,
        after.asString]

/-- Caption+label extraction for one figure/table environment body
(latex_parser.py 123–152). -/
def parseFloatBody (body : String) : LatexFloat :=
  { caption :=
      match findCommandArg "caption" body with
      | some a => cleanLatex a
      | none => ""
    label :=
      match findCommandArg "label" body with
      | some a => pyStripSet "{}" a
      | none => "" }

/-- Equation extraction for one equation environment body (latex_parser.py
156–170): promote the label, then join the stripped non-label children with
single spaces and strip. -/
def parseEquationBody (body : String) : LatexEquation :=
  { content :=
      pyStrip (String.intercalate " "
        (((equationChildren body).map pyStrip).filter
          (fun child => ¬ "\\label".data.isPrefixOf child.data)))
    label :=
      match findCommandArg "label" body with
      | some a => pyStripSet "{}" a
      | none => "" }

/-- The fixed sectioning commands with their numeric levels
(latex_parser.py 103–108). -/
def sectionTypes : List (String × Nat) :=
  [("chapter", 0), ("section", 1), ("subsection", 2), ("subsubsection", 3)]

/-- `LaTeXParser._parse_latex` (latex_parser.py 62–201) over the modelled
TexSoup lookups: document class, metadata commands, sectioning commands
grouped by type, figure/table/equation environments, bibliography presence,
citation count, and comma-separated package names. -/
def parseLatex (filePath content : String) : LatexStructure :=
  { file_path := filePath
    document_type := "latex"
    document_class := (findCommandArg "documentclass" content).map (pyStripSet "{}")
    title := (findCommandArg "title" content).map cleanLatex
    author := (findCommandArg "author" content).map cleanLatex
    date := (findCommandArg "date" content).map cleanLatex
    sections :=
      sectionTypes.flatMap (fun st =>
        (findAllCommandArgs st.1 content).map
          (fun a => ⟨st.1, st.2, cleanLatex a⟩))
    figures := (findEnvBodies "figure" content).map parseFloatBody
    tables := (findEnvBodies "table" content).map parseFloatBody
    equations := (findEnvBodies "equation" content).map parseEquationBody
    packages :=
      (findAllCommandArgs "usepackage" content).flatMap
        (fun a => (pySplit (pyStripSet "{}" a) ",").map pyStrip)
    has_bibliography :=
      (findCommandArg "bibliography" content).isSome ||
        !(findEnvBodies "thebibliography" content).isEmpty
    citation_count := (findAllCommandArgs "cite" content).length
    raw_content := content }

/-- The concrete markup-source input of the C8 test property. -/
def latexSample : String :=
  "\\documentclass\x7barticle\x7d\n\\usepackage\x7bamsmath\x7d\n\\title\x7bTest\x7d\n\\author\x7bA\x7d\n\\begin\x7bdocument\x7d\n\\section\x7bIntro\x7d\nSome text \\cite\x7bx\x7d.\n\\begin\x7bfigure\x7d\n\\caption\x7bFig\x7d\n\\label\x7bfig:1\x7d\n\\end\x7bfigure\x7d\n\\begin\x7bequation\x7d\nE = mc^2\n\\label\x7beq:1\x7d\n\\end\x7bequation\x7d\n\\end\x7bdocument\x7d\n"

/-- A JSON value that is either a string or `null` — the value type of the
word-document extractor's `metadata` dict entries and of its `xml_content`
field (docx_parser.py 114–138). -/
inductive StrOrNull where
  | null
  | str (s : String)
deriving DecidableEq, Repr

/-- One paragraph as exposed by python-docx: its text, optional style name,
optional alignment rendering, and run count. -/
structure DocxParagraph where
  text : String
  style : Option String
  alignment : Option String
  runsCount : Nat
deriving DecidableEq, Repr

/-- One table as exposed by python-docx: its column count and row-major cell
texts. -/
structure DocxTable where
  columns : Nat
  cells : List (List String)
deriving DecidableEq, Repr

/-- One section as exposed by python-docx: optional page geometry in inches,
optional orientation rendering, and the header/footer paragraph lists. -/
structure DocxSection where
  pageWidth : Option ℚ
  pageHeight : Option ℚ
  orientation : Option String
  headerParagraphs : List String
  footerParagraphs : List String
deriving DecidableEq, Repr

/-- The core properties of a document: string-valued properties default to
the empty string when unset (`None` and `""` are both falsy under the
source's `or ""`), while `created`/`modified` model the optional datetime
values (`some s` standing for a timestamp whose `str()` is `s`). -/
structure DocxCoreProperties where
  author : Option String
  title : Option String
  subject : Option String
  created : Option String
  modified : Option String
deriving DecidableEq, Repr

/-- A parsed word-processing document as the extractor consumes it.
`xmlDocument` is the decoded `word/document.xml` payload; `none` covers a
missing archive entry as well as the caught BadZipFile / UnicodeDecodeError /
OSError cases (docx_parser.py 129–138). -/
structure PyDocxDocument where
  paragraphs : List DocxParagraph
  tables : List DocxTable
  sections : List DocxSection
  coreProperties : DocxCoreProperties
  xmlDocument : Option String
deriving DecidableEq, Repr

/-- The `paragraphs` entries of the result dict (docx_parser.py 74–81). -/
structure DocxParagraphInfo where
  text : String
  style : Option String
  alignment : Option String
  runs_count : Nat
deriving DecidableEq, Repr

/-- The `tables` entries of the result dict (docx_parser.py 86–95). -/
structure DocxTableInfo where
  rows : Nat
  columns : Nat
  cells : List (List String)
deriving DecidableEq, Repr

/-- The `sections` entries of the result dict (docx_parser.py 98–106). -/
structure DocxSectionInfo where
  page_width : Option ℚ
  page_height : Option ℚ
  orientation : Option String
deriving DecidableEq, Repr

/-- The dictionary returned by `DocxParser.parse` (docx_parser.py 59–140).
`metadata` keeps its dict shape because its `created`/`modified` values can
be `null`; `xml_content` likewise. -/
structure DocxStructure where
  file_path : String
  document_type : String
  paragraphs : List DocxParagraphInfo
  tables : List DocxTableInfo
  sections : List DocxSectionInfo
  styles : List String
  has_header : Bool
  has_footer : Bool
  metadata : List (String × StrOrNull)
  xml_content : StrOrNull
deriving DecidableEq, Repr

/-- `DocxParser.parse` (docx_parser.py 35–140) after the document has been
opened: paragraph/table/section extraction, first-section header/footer
detection, core metadata with `or ""` defaults for author/title/subject and
`str(...) if ... else None` for the timestamps, and the best-effort raw XML
payload left `null` when unavailable. (`styles` is a Python set converted to
a list; it is modelled as first-occurrence deduplication, the set's
iteration order being unspecified.) -/
def parseDocx (filePath : String) (doc : PyDocxDocument) : DocxStructure :=
  { file_path := filePath
    document_type := "docx"
    paragraphs := doc.paragraphs.map (fun p => ⟨p.text, p.style, p.alignment, p.runsCount⟩)
    tables := doc.tables.map (fun t => ⟨t.cells.length, t.columns, t.cells⟩)
    sections := doc.sections.map (fun s => ⟨s.pageWidth, s.pageHeight, s.orientation⟩)
    styles := (doc.paragraphs.filterMap (·.style)).dedup
    has_header :=
      match doc.sections.head? with
      | some s => !s.headerParagraphs.isEmpty
      | none => false
    has_footer :=
      match doc.sections.head? with
      | some s => !s.footerParagraphs.isEmpty
      | none => false
    metadata :=
      [("author", .str (doc.coreProperties.author.getD "")),
        ("title", .str (doc.coreProperties.title.getD "")),
        ("subject", .str (doc.coreProperties.subject.getD "")),
        ("created",
          match doc.coreProperties.created with
          | some s => .str s
          | none => .null),
        ("modified",
          match doc.coreProperties.modified with
          | some s => .str s
          | none => .null)]
    xml_content :=
      match doc.xmlDocument with
      | some s => .str s
      | none => .null }

/-- A word-processing document with no core properties set and no
extractable XML payload. -/
def emptyDocx : PyDocxDocument :=
  { paragraphs := []
    tables := []
    sections := []
    coreProperties := ⟨none, none, none, none, none⟩
    xmlDocument := none }

example : pySplit "a: 1 b: 2" ": " = ["a", "1 b", "2"] := by decide
example : pySplit "abc" "X" = ["abc"] := by decide
example : pyContains "Result: PASS" "PASS" = true := by decide
example : pyContains "Result" "PASS" = false := by decide
example : pyUpper "pass me" = "PASS ME" := by decide
example : pyStrip "  0.9\r " = "0.9" := by decide
example : pyStripSet "{}" "{fig:1}" = "fig:1" := by decide

unseal Rat.mul Rat.add Rat.inv in
example : pyFloat "0.9" = some (.finite (9/10)) := by decide
unseal Rat.mul Rat.add Rat.inv in
example : pyFloat " 1.5 " = some (.finite (3/2)) := by decide
example : pyFloat "high" = none := by decide
unseal Rat.mul Rat.add Rat.inv in
example : pyFloat "1e2" = some (.finite 100) := by decide
example : pyFloat "-inf" = some .neginf := by decide

unseal Rat.mul Rat.add Rat.inv in
example :
    parseJudgment "n" "Result: PASS\nConfidence: 0.9\nReasoning: ok" =
      ⟨"n", true, 9/10, some "ok"⟩ := by decide
example :
    parseJudgment "n" "PASS" =
      ⟨"n", false, 0, some "Validation error: IndexError: list index out of range"⟩ := by
  decide
unseal Rat.mul Rat.add Rat.inv in
example :
    parseJudgment "n" "Result: PASS and FAIL\nConfidence: 0.9" =
      ⟨"n", false, 9/10, some "Result: PASS and FAIL\nConfidence: 0.9"⟩ := by decide

example : detectParser "dir/report.DOCX" = .ok .docx := by decide
example : detectParser "a/b/page.htm" = .ok .html := by decide
example : detectParser "paper.LaTeX" = .ok .latex := by decide
example : detectParser "paper.pdf" =
    .error "No parser found for file extension: .pdf. Supported extensions: .docx, .html, .htm, .tex, .latex" := by
  decide

theorem mkValidationResult_ok_fields {n : String} {p : Bool} {c : PyFloat}
    {r : Option String} {v : ValidationResult}
    (h : mkValidationResult n p c r = .ok v) :
    v.spec_name = n ∧ v.passed = p ∧ v.reasoning = r := by
  cases c with
  | finite q =>
    simp only [mkValidationResult] at h
    split at h
    · cases h
      exact ⟨rfl, rfl, rfl⟩
    · simp at h
  | inf => simp [mkValidationResult] at h
  | neginf => simp [mkValidationResult] at h
  | nan => simp [mkValidationResult] at h

theorem mkValidationResult_finite_ok_confidence {n : String} {p : Bool} {q : ℚ}
    {r : Option String} {v : ValidationResult}
    (h : mkValidationResult n p (.finite q) r = .ok v) : v.confidence = q := by
  simp only [mkValidationResult] at h
  split at h
  · cases h
    rfl
  · simp at h

theorem parseJudgment_spec_name (n t : String) : (parseJudgment n t).spec_name = n := by
  cases hp : computePassed t with
  | error e => simp [parseJudgment, parseResponseText, hp, errorResult]
  | ok b =>
    cases hv : mkValidationResult n b (computeConfidence t) (some (finalReasoning t)) with
    | error e => simp [parseJudgment, parseResponseText, hp, hv, errorResult]
    | ok v =>
      simp [parseJudgment, parseResponseText, hp, hv, (mkValidationResult_ok_fields hv).1]

theorem parseJudgment_passed_of_ok_false {n t : String}
    (h : ∀ b, computePassed t = .ok b → b = false) :
    (parseJudgment n t).passed = false := by
  cases hp : computePassed t with
  | error e => simp [parseJudgment, parseResponseText, hp, errorResult]
  | ok b =>
    cases hv : mkValidationResult n b (computeConfidence t) (some (finalReasoning t)) with
    | error e => simp [parseJudgment, parseResponseText, hp, hv, errorResult]
    | ok v =>
      have hb := h b hp
      subst hb
      simp [parseJudgment, parseResponseText, hp, hv, (mkValidationResult_ok_fields hv).2.1]

theorem validateSpec_calls (judge : Judge) (docJson : String) (spec : ValidationSpec) :
    (validateSpec judge docJson spec).2 = [⟨.scoringLegacy docJson spec, none⟩] := by
  cases hj : judge (.scoringLegacy docJson spec) none with
  | error e => simp [validateSpec, hj]
  | ok resp =>
    cases hp : parseResponseText spec.name resp.data with
    | error e => simp [validateSpec, hj, hp]
    | ok r => simp [validateSpec, hj, hp]

theorem validateSpec_result (judge : Judge) (docJson : String) (spec : ValidationSpec) :
    (validateSpec judge docJson spec).1 =
      match judge (.scoringLegacy docJson spec) none with
      | .error e => errorResult spec.name e
      | .ok resp => parseJudgment spec.name resp.data := by
  cases hj : judge (.scoringLegacy docJson spec) none with
  | error e => simp [validateSpec, hj]
  | ok resp =>
    cases hp : parseResponseText spec.name resp.data with
    | error e => simp [validateSpec, parseJudgment, hj, hp]
    | ok r => simp [validateSpec, parseJudgment, hj, hp]

theorem validateSpec_spec_name (judge : Judge) (docJson : String) (spec : ValidationSpec) :
    (validateSpec judge docJson spec).1.spec_name = spec.name := by
  rw [validateSpec_result]
  cases hj : judge (.scoringLegacy docJson spec) none with
  | error e => rfl
  | ok resp => exact parseJudgment_spec_name _ _

theorem isEmpty_false_of_ne_nil {α : Type} {l : List α} (h : l ≠ []) :
    l.isEmpty = false := by
  cases l with
  | nil => exact absurd rfl h
  | cons a t => rfl

theorem validateSpecWithContext_eq (judge : Judge) (spec : ValidationSpec)
    (history : List Msg) (docJson : String) (hne : history ≠ []) :
    validateSpecWithContext judge spec history docJson =
      match judge (.scoringWithContext spec) (some history) with
      | .error e =>
        ((errorResult spec.name e, history), [⟨.scoringWithContext spec, some history⟩])
      | .ok resp =>
        match parseResponseText spec.name resp.data with
        | .ok r => ((r, resp.allMessages), [⟨.scoringWithContext spec, some history⟩])
        | .error e =>
          ((errorResult spec.name e, history), [⟨.scoringWithContext spec, some history⟩]) := by
  simp [validateSpecWithContext, isEmpty_false_of_ne_nil hne]

theorem validateSpecWithContext_spec_name (judge : Judge) (spec : ValidationSpec)
    (history : List Msg) (docJson : String) :
    (validateSpecWithContext judge spec history docJson).1.1.spec_name = spec.name := by
  by_cases hne : history = []
  · subst hne
    simp only [validateSpecWithContext, List.isEmpty_nil, if_pos]
    exact validateSpec_spec_name judge docJson spec
  · rw [validateSpecWithContext_eq judge spec history docJson hne]
    cases hj : judge (.scoringWithContext spec) (some history) with
    | error e => rfl
    | ok resp =>
      cases hp : parseResponseText spec.name resp.data with
      | error e => simp [hp, errorResult]
      | ok r =>
        have : parseJudgment spec.name resp.data = r := by
          simp [parseJudgment, hp]
        simp [hp]
        rw [← this]
        exact parseJudgment_spec_name _ _

theorem validateSpecWithContext_history (judge : Judge) (spec : ValidationSpec)
    (history : List Msg) (docJson : String) (hne : history ≠ []) :
    (validateSpecWithContext judge spec history docJson).1.2 = history ∨
      ∃ resp, judge (.scoringWithContext spec) (some history) = .ok resp ∧
        (validateSpecWithContext judge spec history docJson).1.2 = resp.allMessages := by
  rw [validateSpecWithContext_eq judge spec history docJson hne]
  cases hj : judge (.scoringWithContext spec) (some history) with
  | error e => left; rfl
  | ok resp =>
    cases hp : parseResponseText spec.name resp.data with
    | error e => left; simp [hp]
    | ok r => right; exact ⟨resp, rfl, by simp [hp]⟩

theorem validateSpecWithContext_calls (judge : Judge) (spec : ValidationSpec)
    (history : List Msg) (docJson : String) (hne : history ≠ []) :
    (validateSpecWithContext judge spec history docJson).2 =
      [⟨.scoringWithContext spec, some history⟩] := by
  rw [validateSpecWithContext_eq judge spec history docJson hne]
  cases hj : judge (.scoringWithContext spec) (some history) with
  | error e => rfl
  | ok resp =>
    cases hp : parseResponseText spec.name resp.data with
    | error e => simp [hp]
    | ok r => simp [hp]

theorem validateLoop_names (judge : Judge) (docJson : String) (useContext : Bool)
    (specs : List ValidationSpec) :
    ∀ history : List Msg,
      ((validateLoop judge docJson useContext specs history).1.1).map (·.spec_name) =
        specs.map (·.name) := by
  induction specs with
  | nil => intro history; rfl
  | cons spec rest ih =>
    intro history
    cases useContext with
    | true => simp [validateLoop, validateSpecWithContext_spec_name, ih]
    | false => simp [validateLoop, validateSpec_spec_name, ih]

theorem validateLoop_length (judge : Judge) (docJson : String) (useContext : Bool)
    (specs : List ValidationSpec) (history : List Msg) :
    ((validateLoop judge docJson useContext specs history).1.1).length = specs.length := by
  have := congrArg List.length (validateLoop_names judge docJson useContext specs history)
  simpa using this

theorem validateLoop_legacy_calls (judge : Judge) (docJson : String)
    (specs : List ValidationSpec) :
    ∀ history : List Msg,
      (validateLoop judge docJson false specs history).2 =
        specs.map (fun s => ⟨.scoringLegacy docJson s, none⟩) := by
  induction specs with
  | nil => intro history; rfl
  | cons spec rest ih =>
    intro history
    simp [validateLoop, validateSpec_calls, ih]

theorem validateLoop_context_calls (judge : Judge) (docJson : String)
    (specs : List ValidationSpec)
    (Hok : ∀ k h resp, judge k h = .ok resp → resp.allMessages ≠ []) :
    ∀ history : List Msg, history ≠ [] →
      (validateLoop judge docJson true specs history).2.length = specs.length ∧
      ∀ c ∈ (validateLoop judge docJson true specs history).2,
        ∃ s, c.prompt = .scoringWithContext s := by
  induction specs with
  | nil => intro history hne; exact ⟨rfl, by intro c hc; cases hc⟩
  | cons spec rest ih =>
    intro history hne
    have hstep := validateSpecWithContext_calls judge spec history docJson hne
    have hnext : (validateSpecWithContext judge spec history docJson).1.2 ≠ [] := by
      rcases validateSpecWithContext_history judge spec history docJson hne with h | ⟨resp, hj, h⟩
      · rw [h]; exact hne
      · rw [h]; exact Hok _ _ _ hj
    obtain ⟨ihlen, ihmem⟩ := ih (validateSpecWithContext judge spec history docJson).1.2 hnext
    constructor
    · simp [validateLoop, hstep, ihlen]
    · intro c hc
      simp only [validateLoop, hstep, if_true, List.cons_append, List.nil_append,
        List.mem_cons] at hc
      rcases hc with hc | hc
      · subst hc
        exact ⟨spec, rfl⟩
      · exact ihmem c hc

theorem validateLoop_allFail (judge : Judge) (docJson : String)
    (specs : List ValidationSpec)
    (hfail : ∀ k h, ∃ e, judge k h = .error e) :
    ∀ history : List Msg,
      ∀ r ∈ (validateLoop judge docJson false specs history).1.1,
        r.passed = false ∧ r.confidence = 0 := by
  induction specs with
  | nil => intro history r hr; cases hr
  | cons spec rest ih =>
    intro history r hr
    simp only [validateLoop, Bool.false_eq_true, if_false, List.mem_cons] at hr
    rcases hr with hr | hr
    · obtain ⟨e, he⟩ := hfail (.scoringLegacy docJson spec) none
      subst hr
      rw [validateSpec_result, he]
      exact ⟨rfl, rfl⟩
    · exact ih history r hr

theorem pyContainsChars_append_right (sub : List Char) (x : List Char) {s : List Char}
    (h : pyContainsChars sub s = true) : pyContainsChars sub (x ++ s) = true := by
  induction x with
  | nil => rwa [List.nil_append]
  | cons c cs ih =>
    have hstep : pyContainsChars sub (c :: (cs ++ s)) =
        (sub.isPrefixOf (c :: (cs ++ s)) || pyContainsChars sub (cs ++ s)) := rfl
    rw [List.cons_append, hstep, ih, Bool.or_true]

theorem pyContainsChars_append_self (sub a b : List Char) :
    pyContainsChars sub (a ++ (sub ++ b)) = true := by
  induction a with
  | nil =>
    cases sub with
    | nil =>
      cases b with
      | nil => rfl
      | cons c r => rfl
    | cons c rest =>
      have hpre : (c :: rest).isPrefixOf (c :: (rest ++ b)) = true := by
        rw [List.isPrefixOf_iff_prefix, ← List.cons_append]
        exact List.prefix_append _ _
      have hstep : pyContainsChars (c :: rest) (c :: (rest ++ b)) =
          ((c :: rest).isPrefixOf (c :: (rest ++ b)) ||
            pyContainsChars (c :: rest) (rest ++ b)) := rfl
      rw [List.nil_append, List.cons_append, hstep, hpre, Bool.true_or]
  | cons x xs ih =>
    have hstep : pyContainsChars sub (x :: (xs ++ (sub ++ b))) =
        (sub.isPrefixOf (x :: (xs ++ (sub ++ b))) ||
          pyContainsChars sub (xs ++ (sub ++ b))) := rfl
    rw [List.cons_append, hstep, ih, Bool.or_true]

theorem pyContainsChars_prefix (sub b : List Char) :
    pyContainsChars sub (sub ++ b) = true := by
  have := pyContainsChars_append_self sub [] b
  rwa [List.nil_append] at this

set_option maxRecDepth 4000 in
theorem renderPrompt_embedsDoc {docJson : String} {k : PromptKind}
    (h : promptEmbedsDoc docJson k) :
    pyContains (renderPrompt k) docJson = true := by
  cases k with
  | contextSetup d =>
    cases h
    simp only [renderPrompt, pyContains, String.data_append, List.append_assoc]
    repeat
      first
        | exact pyContainsChars_prefix _ _
        | apply pyContainsChars_append_right
  | scoringWithContext spec => cases h
  | scoringLegacy d spec =>
    cases h
    simp only [renderPrompt, pyContains, String.data_append, List.append_assoc]
    repeat
      first
        | exact pyContainsChars_prefix _ _
        | apply pyContainsChars_append_right

theorem validate_calls (judge : Judge) (filePath docJson : String)
    (specs : List ValidationSpec) :
    (validate judge filePath docJson specs).2 =
      (setupDocumentContext judge docJson).2 ++
        (validateLoop judge docJson (!(setupDocumentContext judge docJson).1.isEmpty)
          specs (setupDocumentContext judge docJson).1).2 := rfl

theorem validate_results (judge : Judge) (filePath docJson : String)
    (specs : List ValidationSpec) :
    (validate judge filePath docJson specs).1.results =
      (validateLoop judge docJson (!(setupDocumentContext judge docJson).1.isEmpty)
        specs (setupDocumentContext judge docJson).1).1.1 := rfl

theorem validate_score_def (judge : Judge) (filePath docJson : String)
    (specs : List ValidationSpec) :
    (validate judge filePath docJson specs).1.score =
      if (validate judge filePath docJson specs).1.total_score_available > 0 then
        (validate judge filePath docJson specs).1.achieved_score /
          (validate judge filePath docJson specs).1.total_score_available
      else 0 := rfl

theorem resultMap_cons_self {r : ValidationResult} {rs : List ValidationResult} {nm : String}
    (hr : r.spec_name = nm) (hnotin : nm ∉ rs.map (·.spec_name)) :
    resultMap (r :: rs) nm = some r := by
  unfold resultMap
  rw [List.reverse_cons, List.find?_append]
  have hnone : rs.reverse.find? (fun x => x.spec_name = nm) = none := by
    rw [List.find?_eq_none]
    intro x hx
    have : x.spec_name ∈ rs.map (·.spec_name) :=
      List.mem_map_of_mem _ (List.mem_reverse.mp hx)
    simp only [decide_eq_true_eq]
    intro hEq
    exact hnotin (hEq ▸ this)
  rw [hnone]
  simp [List.find?, hr]

theorem resultMap_cons_ne {r : ValidationResult} {rs : List ValidationResult} {nm : String}
    (hne : nm ≠ r.spec_name) :
    resultMap (r :: rs) nm = resultMap rs nm := by
  unfold resultMap
  rw [List.reverse_cons, List.find?_append]
  have hsingle : [r].find? (fun x => x.spec_name = nm) = none := by
    have hd : (decide (r.spec_name = nm)) = false :=
      decide_eq_false (fun hEq => hne hEq.symm)
    show (match decide (r.spec_name = nm) with
      | true => some r
      | false => List.find? (fun x => decide (x.spec_name = nm)) [] ) = none
    rw [hd]
    rfl
  rw [hsingle]
  cases rs.reverse.find? (fun x => x.spec_name = nm) <;> rfl

theorem achieved_eq_zip (specs : List ValidationSpec) (results : List ValidationResult)
    (hnames : results.map (·.spec_name) = specs.map (·.name))
    (hnodup : (specs.map (·.name)).Nodup) :
    ((specs.filter
        (fun s => ((resultMap results s.name).map (·.passed)).getD false)).map (·.score)).sum =
      (((specs.zip results).filter (fun p => p.2.passed)).map (fun p => p.1.score)).sum := by
  induction specs generalizing results with
  | nil =>
    cases results with
    | nil => rfl
    | cons r rs => simp at hnames
  | cons s ss ih =>
    cases results with
    | nil => simp at hnames
    | cons r rs =>
      simp only [List.map_cons, List.cons.injEq] at hnames
      obtain ⟨hname, hrest⟩ := hnames
      simp only [List.map_cons, List.nodup_cons] at hnodup
      obtain ⟨hnotin, hnodup'⟩ := hnodup
      have hmapS : resultMap (r :: rs) s.name = some r :=
        resultMap_cons_self hname (by rw [hrest]; exact hnotin)
      have hcongr :
          ∀ s' ∈ ss,
            (decide (((resultMap (r :: rs) s'.name).map (·.passed)).getD false = true)) =
              (decide (((resultMap rs s'.name).map (·.passed)).getD false = true)) := by
        intro s' hs'
        have hnm : s'.name ≠ r.spec_name := by
          rw [hname]
          intro hEq
          exact hnotin (hEq ▸ List.mem_map_of_mem _ hs')
        rw [resultMap_cons_ne hnm]
      have htail :
          ss.filter (fun s' => ((resultMap (r :: rs) s'.name).map (·.passed)).getD false) =
            ss.filter (fun s' => ((resultMap rs s'.name).map (·.passed)).getD false) :=
        List.filter_congr (by intro s' hs'; simpa using hcongr s' hs')
      rw [List.zip_cons_cons, List.filter_cons, List.filter_cons, htail]
      cases hpass : r.passed with
      | true => simp [hmapS, hpass, ih rs hrest hnodup']
      | false => simp [hmapS, hpass, ih rs hrest hnodup']

theorem validate_file_path (judge : Judge) (filePath docJson : String)
    (specs : List ValidationSpec) :
    (validate judge filePath docJson specs).1.file_path = filePath := rfl

theorem validate_total_specs (judge : Judge) (filePath docJson : String)
    (specs : List ValidationSpec) :
    (validate judge filePath docJson specs).1.total_specs = specs.length := rfl

theorem validate_total_score (judge : Judge) (filePath docJson : String)
    (specs : List ValidationSpec) :
    (validate judge filePath docJson specs).1.total_score_available =
      (specs.map (·.score)).sum := rfl

theorem validate_achieved_def (judge : Judge) (filePath docJson : String)
    (specs : List ValidationSpec) :
    (validate judge filePath docJson specs).1.achieved_score =
      ((specs.filter
          (fun spec =>
            ((resultMap (validate judge filePath docJson specs).1.results spec.name).map
                (·.passed)).getD false)).map (·.score)).sum := rfl

/-- C1: in a run whose context establishment succeeds, the serialized document
structure is interpolated into exactly the first judge call (the
context-establishment prompt) and into none of the `N` per-requirement
scoring prompts; in a run whose context establishment raises, every
per-requirement call uses the legacy template embedding the document and
passes no message history. The hypothesis `Hok` reflects that a successful
`run_sync` always returns a non-empty `all_messages()` (it contains at least
the exchanged request and response). -/
theorem claimC1_docSentOnce (judge : Judge) (filePath docJson : String)
    (specs : List ValidationSpec)
    (Hok : ∀ k h resp, judge k h = .ok resp → resp.allMessages ≠ []) :
    ((∃ resp, judge (.contextSetup docJson) none = .ok resp) →
      ∃ tail, (validate judge filePath docJson specs).2 =
          ⟨.contextSetup docJson, none⟩ :: tail ∧
        tail.length = specs.length ∧
        ∀ c ∈ tail, (∃ s, c.prompt = .scoringWithContext s) ∧
          ¬ promptEmbedsDoc docJson c.prompt) ∧
    ((∃ e, judge (.contextSetup docJson) none = .error e) →
      (validate judge filePath docJson specs).2 =
        ⟨.contextSetup docJson, none⟩ ::
          specs.map (fun s => ⟨.scoringLegacy docJson s, none⟩) ∧
      ∀ c ∈ specs.map (fun s => (⟨.scoringLegacy docJson s, none⟩ : JudgeCall)),
        promptEmbedsDoc docJson c.prompt ∧ c.history = none) := by
  constructor
  · rintro ⟨resp, hj⟩
    have hsetup : setupDocumentContext judge docJson =
        (resp.allMessages, [⟨.contextSetup docJson, none⟩]) := by
      simp [setupDocumentContext, hj]
    have hne : resp.allMessages ≠ [] := Hok _ _ _ hj
    refine ⟨(validateLoop judge docJson true specs resp.allMessages).2, ?_, ?_, ?_⟩
    · rw [validate_calls, hsetup]
      simp [isEmpty_false_of_ne_nil hne]
    · exact (validateLoop_context_calls judge docJson specs Hok resp.allMessages hne).1
    · intro c hc
      obtain ⟨s, hs⟩ :=
        (validateLoop_context_calls judge docJson specs Hok resp.allMessages hne).2 c hc
      exact ⟨⟨s, hs⟩, by rw [hs]; exact id⟩
  · rintro ⟨e, hj⟩
    have hsetup : setupDocumentContext judge docJson =
        ([], [⟨.contextSetup docJson, none⟩]) := by
      simp [setupDocumentContext, hj]
    constructor
    · rw [validate_calls, hsetup]
      simp [validateLoop_legacy_calls]
    · intro c hc
      simp only [List.mem_map] at hc
      obtain ⟨s, _, hs⟩ := hc
      subst hs
      exact ⟨rfl, rfl⟩

theorem claimC1_docSentOnce_witness :
    ∃ tail,
      (validate (fun _ _ => Except.ok ⟨"Result: PASS", ["m"]⟩) "doc.docx" "DOC"
          [⟨"r", "d", none, 1⟩]).2 =
        ⟨.contextSetup "DOC", none⟩ :: tail ∧
      tail.length = 1 ∧
      ∀ c ∈ tail, (∃ s, c.prompt = .scoringWithContext s) ∧
        ¬ promptEmbedsDoc "DOC" c.prompt :=
  (claimC1_docSentOnce (fun _ _ => Except.ok ⟨"Result: PASS", ["m"]⟩) "doc.docx" "DOC"
      [⟨"r", "d", none, 1⟩]
      (by intro k h resp hr; cases hr; simp)).1
    ⟨⟨"Result: PASS", ["m"]⟩, rfl⟩

/-- C2: once extraction has succeeded, `validate` always returns a report
with the full schema — one result per specification, in order — and when
every judge call raises, every judgment is failed with confidence 0.0; the
context-establishment failure is absorbed (the run continues in fallback
mode with the same report shape). -/
theorem claimC2_reportUnderTotalJudgeFailure (judge : Judge) (filePath docJson : String)
    (specs : List ValidationSpec)
    (hfail : ∀ k h, ∃ e, judge k h = .error e) :
    (validate judge filePath docJson specs).1.file_path = filePath ∧
    (validate judge filePath docJson specs).1.total_specs = specs.length ∧
    ((validate judge filePath docJson specs).1.results).map (·.spec_name) =
      specs.map (·.name) ∧
    ∀ r ∈ (validate judge filePath docJson specs).1.results,
      r.passed = false ∧ r.confidence = 0 := by
  obtain ⟨e, he⟩ := hfail (.contextSetup docJson) none
  have hsetup : setupDocumentContext judge docJson =
      ([], [⟨.contextSetup docJson, none⟩]) := by
    simp [setupDocumentContext, he]
  refine ⟨rfl, rfl, ?_, ?_⟩
  · rw [validate_results]
    exact validateLoop_names _ _ _ _ _
  · intro r hr
    rw [validate_results, hsetup] at hr
    simp only [List.isEmpty_nil, Bool.not_true] at hr
    exact validateLoop_allFail judge docJson specs hfail [] r hr

theorem claimC2_reportUnderTotalJudgeFailure_witness :
    (validate (fun _ _ => Except.error "boom") "doc.docx" "DOC"
        [⟨"r", "d", none, 1⟩, ⟨"s", "d", none, 2⟩]).1.file_path = "doc.docx" ∧
    (validate (fun _ _ => Except.error "boom") "doc.docx" "DOC"
        [⟨"r", "d", none, 1⟩, ⟨"s", "d", none, 2⟩]).1.total_specs = 2 ∧
    ((validate (fun _ _ => Except.error "boom") "doc.docx" "DOC"
        [⟨"r", "d", none, 1⟩, ⟨"s", "d", none, 2⟩]).1.results).map (·.spec_name) =
      ["r", "s"] ∧
    ∀ r ∈ (validate (fun _ _ => Except.error "boom") "doc.docx" "DOC"
        [⟨"r", "d", none, 1⟩, ⟨"s", "d", none, 2⟩]).1.results,
      r.passed = false ∧ r.confidence = 0 :=
  claimC2_reportUnderTotalJudgeFailure (fun _ _ => Except.error "boom") "doc.docx" "DOC"
    [⟨"r", "d", none, 1⟩, ⟨"s", "d", none, 2⟩] (fun _ _ => ⟨"boom", rfl⟩)

/-- C3: in context mode (non-empty history), when the judge call for one
requirement raises, or its response fails to parse into a valid result, the
synthesized judgment is failed with confidence 0.0 and a reasoning carrying
the error description, and the history handed to the next requirement is
exactly the pre-call history. -/
theorem claimC3_perRequirementIsolation (judge : Judge) (spec : ValidationSpec)
    (history : List Msg) (docJson : String) (e : String) (hne : history ≠ [])
    (hfail : judge (.scoringWithContext spec) (some history) = .error e ∨
      ∃ resp, judge (.scoringWithContext spec) (some history) = .ok resp ∧
        parseResponseText spec.name resp.data = .error e) :
    (validateSpecWithContext judge spec history docJson).1 =
      (⟨spec.name, false, 0, some ("Validation error: " ++ e)⟩, history) := by
  rw [validateSpecWithContext_eq judge spec history docJson hne]
  rcases hfail with hj | ⟨resp, hj, hp⟩
  · rw [hj]
    rfl
  · rw [hj]
    simp [hp, errorResult]

theorem claimC3_perRequirementIsolation_witness :
    (validateSpecWithContext (fun _ _ => Except.error "boom") ⟨"r", "d", none, 1⟩
        ["m"] "DOC").1 =
      (⟨"r", false, 0, some "Validation error: boom"⟩, ["m"]) :=
  claimC3_perRequirementIsolation (fun _ _ => Except.error "boom") ⟨"r", "d", none, 1⟩
    ["m"] "DOC" "boom" (by simp) (Or.inl rfl)

/-- C4: for distinct requirement names, the report's total weight is the sum
of all scores, the achieved weight is the sum of the scores of the
requirements whose (positionally corresponding) judgment passed, and the
normalized score is their quotient when the total is positive and 0.0
whenever the total is non-positive, regardless of the achieved weight. -/
theorem claimC4_weightedAggregation (judge : Judge) (filePath docJson : String)
    (specs : List ValidationSpec) (hnodup : (specs.map (·.name)).Nodup) :
    (validate judge filePath docJson specs).1.total_score_available =
      (specs.map (·.score)).sum ∧
    (validate judge filePath docJson specs).1.achieved_score =
      (((specs.zip (validate judge filePath docJson specs).1.results).filter
          (fun p => p.2.passed)).map (fun p => p.1.score)).sum ∧
    ((validate judge filePath docJson specs).1.total_score_available > 0 →
      (validate judge filePath docJson specs).1.score =
        (validate judge filePath docJson specs).1.achieved_score /
          (validate judge filePath docJson specs).1.total_score_available) ∧
    ((validate judge filePath docJson specs).1.total_score_available ≤ 0 →
      (validate judge filePath docJson specs).1.score = 0) := by
  refine ⟨rfl, ?_, ?_, ?_⟩
  · rw [validate_achieved_def]
    exact achieved_eq_zip specs _
      (by rw [validate_results]; exact validateLoop_names _ _ _ _ _) hnodup
  · intro h
    rw [validate_score_def, if_pos h]
  · intro h
    rw [validate_score_def, if_neg (not_lt.mpr h)]

unseal Rat.mul Rat.add Rat.inv in
theorem claimC4_weightedAggregation_witness :
    (validate (fun _ _ => Except.error "x") "f.docx" "DOC"
        [⟨"a", "d", none, 2⟩, ⟨"b", "e", none, -3⟩]).1.total_score_available =
      (([⟨"a", "d", none, 2⟩, ⟨"b", "e", none, -3⟩] : List ValidationSpec).map
        (·.score)).sum ∧
    (validate (fun _ _ => Except.error "x") "f.docx" "DOC"
        [⟨"a", "d", none, 2⟩, ⟨"b", "e", none, -3⟩]).1.achieved_score =
      (((([⟨"a", "d", none, 2⟩, ⟨"b", "e", none, -3⟩] : List ValidationSpec).zip
            (validate (fun _ _ => Except.error "x") "f.docx" "DOC"
              [⟨"a", "d", none, 2⟩, ⟨"b", "e", none, -3⟩]).1.results).filter
          (fun p => p.2.passed)).map (fun p => p.1.score)).sum ∧
    ((validate (fun _ _ => Except.error "x") "f.docx" "DOC"
        [⟨"a", "d", none, 2⟩, ⟨"b", "e", none, -3⟩]).1.total_score_available > 0 →
      (validate (fun _ _ => Except.error "x") "f.docx" "DOC"
          [⟨"a", "d", none, 2⟩, ⟨"b", "e", none, -3⟩]).1.score =
        (validate (fun _ _ => Except.error "x") "f.docx" "DOC"
            [⟨"a", "d", none, 2⟩, ⟨"b", "e", none, -3⟩]).1.achieved_score /
          (validate (fun _ _ => Except.error "x") "f.docx" "DOC"
            [⟨"a", "d", none, 2⟩, ⟨"b", "e", none, -3⟩]).1.total_score_available) ∧
    ((validate (fun _ _ => Except.error "x") "f.docx" "DOC"
        [⟨"a", "d", none, 2⟩, ⟨"b", "e", none, -3⟩]).1.total_score_available ≤ 0 →
      (validate (fun _ _ => Except.error "x") "f.docx" "DOC"
          [⟨"a", "d", none, 2⟩, ⟨"b", "e", none, -3⟩]).1.score = 0) :=
  claimC4_weightedAggregation (fun _ _ => Except.error "x") "f.docx" "DOC"
    [⟨"a", "d", none, 2⟩, ⟨"b", "e", none, -3⟩] (by decide)

/-- C5: the parsed judgment's `passed` is true only if the literal token
"PASS" occurs in the uppercased response and "FAIL" does not occur
(uppercased) in the text between the "Result:" marker and the next newline;
in particular a result line containing both tokens parses to
`passed = false` rather than raising. -/
theorem claimC5_passOnlyIfMarkers (specName text : String) :
    ((parseJudgment specName text).passed = true →
      pyContains (pyUpper text) "PASS" = true ∧
      ∃ seg, (pySplit text "Result:").get? 1 = some seg ∧
        pyContains (pyUpper (firstLine seg)) "FAIL" = false) ∧
    (∀ seg, (pySplit text "Result:").get? 1 = some seg →
      pyContains (pyUpper (firstLine seg)) "FAIL" = true →
      (parseJudgment specName text).passed = false) := by
  constructor
  · intro hpt
    have hok : computePassed text = .ok true := by
      cases hp : computePassed text with
      | error e => simp [parseJudgment, parseResponseText, hp, errorResult] at hpt
      | ok b =>
        cases hv : mkValidationResult specName b (computeConfidence text)
            (some (finalReasoning text)) with
        | error e => simp [parseJudgment, parseResponseText, hp, hv, errorResult] at hpt
        | ok v =>
          have hb : v.passed = b := (mkValidationResult_ok_fields hv).2.1
          simp only [parseJudgment, parseResponseText, hp, hv] at hpt
          rw [hb.symm.trans hpt]
    unfold computePassed at hok
    split at hok
    · rename_i hcont
      cases hseg : (pySplit text "Result:").get? 1 with
      | none => rw [hseg] at hok; cases hok
      | some seg =>
        rw [hseg] at hok
        have hb := Except.ok.inj hok
        refine ⟨hcont, seg, rfl, ?_⟩
        simpa using hb
    · simp at hok
  · intro seg hseg hfail2
    apply parseJudgment_passed_of_ok_false
    intro b hb
    unfold computePassed at hb
    split at hb
    · rw [hseg] at hb
      have := (Except.ok.inj hb).symm
      rw [this, hfail2]
      rfl
    · exact (Except.ok.inj hb).symm

theorem claimC5_passOnlyIfMarkers_witness :
    (pySplit "Result: PASS FAIL" "Result:").get? 1 = some " PASS FAIL" ∧
    pyContains (pyUpper (firstLine " PASS FAIL")) "FAIL" = true ∧
    (parseJudgment "n" "Result: PASS FAIL").passed = false :=
  ⟨by decide, by decide,
    (claimC5_passOnlyIfMarkers "n" "Result: PASS FAIL").2 " PASS FAIL" (by decide)
      (by decide)⟩

unseal Rat.mul Rat.add Rat.inv in
/-- C6 fails as stated: the response text "PASS" has no confidence marker
and no reasoning marker, yet the parsed judgment has confidence 0.0 (not the
0.8 default) and an error reasoning (not the raw text), because the `passed`
expression raises an IndexError — "PASS" occurs but no "Result:" marker does,
so `split("Result:")[1]` indexes out of range and the per-requirement handler
takes over. -/
theorem claimC6_counterexample :
    pyContains "PASS" "Confidence:" = false ∧
    pyContains "PASS" "Reasoning:" = false ∧
    (parseJudgment "n" "PASS").confidence = 0 ∧
    ¬ (parseJudgment "n" "PASS").confidence = 4/5 ∧
    ¬ (parseJudgment "n" "PASS").reasoning = some "PASS" := by decide

/-- C6 (amended): for every response text whose parsing does not raise —
which requires that the text not contain "PASS" (uppercased) while lacking a
"Result:" marker, and that any parsed confidence be finite and within
[0.0, 1.0] — a missing "Confidence:" marker yields the 0.8 default and a
missing "Reasoning:" marker yields the entire raw response text as
reasoning. -/
theorem claimC6_defaults (specName text : String)
    (hok : ∃ v, parseResponseText specName text = .ok v) :
    (pyContains text "Confidence:" = false →
      (parseJudgment specName text).confidence = 4/5) ∧
    (pyContains text "Reasoning:" = false →
      (parseJudgment specName text).reasoning = some text) := by
  obtain ⟨v, hv⟩ := hok
  have hpj : parseJudgment specName text = v := by simp [parseJudgment, hv]
  unfold parseResponseText at hv
  cases hp : computePassed text with
  | error e => rw [hp] at hv; cases hv
  | ok b =>
    rw [hp] at hv
    constructor
    · intro hnc
      have hconf : computeConfidence text = .finite (4/5) := by
        unfold computeConfidence
        rw [hnc]
        rfl
      rw [hconf] at hv
      rw [hpj]
      exact mkValidationResult_finite_ok_confidence hv
    · intro hnr
      have hfr : finalReasoning text = text := by
        unfold finalReasoning computeReasoning
        rw [hnr]
        rfl
      have := (mkValidationResult_ok_fields hv).2.2
      rw [hfr] at this
      rw [hpj]
      exact this

unseal Rat.mul Rat.add Rat.inv in
theorem claimC6_defaults_witness :
    pyContains "Result: FAIL" "Confidence:" = false ∧
    pyContains "Result: FAIL" "Reasoning:" = false ∧
    (parseJudgment "n" "Result: FAIL").confidence = 4/5 ∧
    (parseJudgment "n" "Result: FAIL").reasoning = some "Result: FAIL" := by
  have h := claimC6_defaults "n" "Result: FAIL"
    ⟨⟨"n", false, 4/5, some "Result: FAIL"⟩, by decide⟩
  exact ⟨by decide, by decide, h.1 (by decide), h.2 (by decide)⟩

/-- C10: when the confidence line parses to a finite value outside
[0.0, 1.0], constructing the pydantic result raises and the per-requirement
handler synthesizes the judgment: failed, confidence 0.0, and a reasoning
beginning with the validation-error description — the out-of-range value is
neither clamped nor replaced by the 0.8 default. -/
theorem claimC10_outOfRangeConfidence (specName text : String) (q : ℚ)
    (hconf : computeConfidence text = .finite q) (hout : q < 0 ∨ 1 < q) :
    (parseJudgment specName text).passed = false ∧
    (parseJudgment specName text).confidence = 0 ∧
    ∃ e, (parseJudgment specName text).reasoning =
      some ("Validation error: " ++ e) := by
  have hrange : ¬ (0 ≤ q ∧ q ≤ 1) := by
    rcases hout with h | h
    · exact fun hr => absurd h (not_lt.mpr hr.1)
    · exact fun hr => absurd h (not_lt.mpr hr.2)
  cases hp : computePassed text with
  | error e =>
    exact ⟨by simp [parseJudgment, parseResponseText, hp, errorResult],
      by simp [parseJudgment, parseResponseText, hp, errorResult],
      e, by simp [parseJudgment, parseResponseText, hp, errorResult]⟩
  | ok b =>
    have hmk : mkValidationResult specName b (computeConfidence text)
        (some (finalReasoning text)) =
        .error "1 validation error for ValidationResult: confidence out of bounds" := by
      rw [hconf]
      simp only [mkValidationResult]
      rw [if_neg hrange]
    refine ⟨?_, ?_,
      "1 validation error for ValidationResult: confidence out of bounds", ?_⟩ <;>
      simp [parseJudgment, parseResponseText, hp, hmk, errorResult]

unseal Rat.mul Rat.add Rat.inv in
theorem claimC10_outOfRangeConfidence_witness :
    computeConfidence "Result: PASS\nConfidence: 1.5" = .finite (3/2) ∧
    (1 : ℚ) < 3/2 ∧
    (parseJudgment "n" "Result: PASS\nConfidence: 1.5").passed = false ∧
    (parseJudgment "n" "Result: PASS\nConfidence: 1.5").confidence = 0 ∧
    ∃ e, (parseJudgment "n" "Result: PASS\nConfidence: 1.5").reasoning =
      some ("Validation error: " ++ e) := by
  have h := claimC10_outOfRangeConfidence "n" "Result: PASS\nConfidence: 1.5" (3/2)
    (by decide) (Or.inr (by decide))
  exact ⟨by decide, by decide, h.1, h.2.1, h.2.2⟩

theorem pyLower_data (s : String) : (pyLower s).data = pyLowerChars s.data :=
  List.toList_asString _

theorem charToNat_ofNat_of_lt {n : Nat} (h : n < 55296) : (Char.ofNat n).toNat = n := by
  unfold Char.ofNat
  rw [dif_pos (Or.inl h)]
  simp [Char.ofNatAux, Char.toNat, UInt32.ofNat', UInt32.toNat]

theorem pyLowerChar_idem (c : Char) : pyLowerChar (pyLowerChar c) = pyLowerChar c := by
  by_cases h : 65 ≤ c.toNat ∧ c.toNat ≤ 90
  · have h1 : pyLowerChar c = Char.ofNat (c.toNat + 32) := by
      unfold pyLowerChar
      rw [if_pos h]
    have htn : (Char.ofNat (c.toNat + 32)).toNat = c.toNat + 32 :=
      charToNat_ofNat_of_lt (by omega)
    rw [h1]
    unfold pyLowerChar
    rw [if_neg (by rw [htn]; omega)]
  · have h1 : pyLowerChar c = c := by
      unfold pyLowerChar
      rw [if_neg h]
    rw [h1, h1]

theorem pyLowerChars_idem (l : List Char) :
    pyLowerChars (pyLowerChars l) = pyLowerChars l := by
  unfold pyLowerChars
  rw [List.map_map]
  exact List.map_congr_left (fun c _ => pyLowerChar_idem c)

theorem pyLower_idem (s : String) : pyLower (pyLower s) = pyLower s := by
  show (pyLowerChars (pyLower s).data).asString = pyLower s
  rw [pyLower_data, pyLowerChars_idem]
  rfl

/-- C7: extension dispatch of `detect_parser`. With `ext` the lowercased
extension of the path's final component: `.docx` selects the word-document
parser, `.html`/`.htm` the hypertext parser, `.tex`/`.latex` the
markup-source parser (first match in registration order docx, html, latex);
any other extension raises a ValueError listing every extension supported
across all registered parsers. -/
theorem claimC7_detectParser (path : String) :
    (pyLower (pathSuffix path) = ".docx" → detectParser path = .ok .docx) ∧
    ((pyLower (pathSuffix path) = ".html" ∨ pyLower (pathSuffix path) = ".htm") →
      detectParser path = .ok .html) ∧
    ((pyLower (pathSuffix path) = ".tex" ∨ pyLower (pathSuffix path) = ".latex") →
      detectParser path = .ok .latex) ∧
    (pyLower (pathSuffix path) ∉
        ([".docx", ".html", ".htm", ".tex", ".latex"] : List String) →
      detectParser path =
        .error ("No parser found for file extension: " ++ pyLower (pathSuffix path)
          ++ ". Supported extensions: "
          ++ ".docx, .html, .htm, .tex, .latex")) := by
  refine ⟨?_, ?_, ?_, ?_⟩
  · intro h
    simp only [detectParser, h]
    decide
  · rintro (h | h) <;> (simp only [detectParser, h]; decide)
  · rintro (h | h) <;> (simp only [detectParser, h]; decide)
  · intro h
    have hne : ∀ s ∈ ([".docx", ".html", ".htm", ".tex", ".latex"] : List String),
        pyLower (pathSuffix path) ≠ s := fun s hs hEq => h (hEq ▸ hs)
    have hid := pyLower_idem (pathSuffix path)
    have hfind : parserRegistry.find?
        (fun p => supportsExtension p (pyLower (pathSuffix path))) = none := by
      rw [List.find?_eq_none]
      intro k hk
      cases k with
      | docx =>
        simp only [supportsExtension, hid, decide_eq_true_eq]
        exact hne ".docx" (by simp)
      | html =>
        simp only [supportsExtension, hid, decide_eq_true_eq]
        rintro (hEq | hEq)
        · exact hne ".html" (by simp) hEq
        · exact hne ".htm" (by simp) hEq
      | latex =>
        simp only [supportsExtension, hid, decide_eq_true_eq]
        rintro (hEq | hEq)
        · exact hne ".tex" (by simp) hEq
        · exact hne ".latex" (by simp) hEq
    have hinter : String.intercalate ", " getAllExtensions =
        ".docx, .html, .htm, .tex, .latex" := by decide
    simp only [detectParser, hfind, hinter]

theorem claimC7_detectParser_witness :
    detectParser "dir/report.DOCX" = .ok .docx ∧
    detectParser "page.htm" = .ok .html ∧
    detectParser "paper.LaTeX" = .ok .latex ∧
    detectParser "paper.pdf" =
      .error ("No parser found for file extension: " ++ pyLower (pathSuffix "paper.pdf")
        ++ ". Supported extensions: " ++ ".docx, .html, .htm, .tex, .latex") :=
  ⟨(claimC7_detectParser "dir/report.DOCX").1 (by decide),
    (claimC7_detectParser "page.htm").2.1 (Or.inr (by decide)),
    (claimC7_detectParser "paper.LaTeX").2.2.1 (Or.inr (by decide)),
    (claimC7_detectParser "paper.pdf").2.2.2 (by decide)⟩

set_option maxRecDepth 10000 in
/-- C8: on a markup-source input with `\title{Test}`, `\author{A}`, one
`\section{Intro}`, one figure environment captioned `Fig` and labelled
`fig:1`, one equation environment labelled `eq:1`, and one `\cite{x}`, the
extractor yields metadata title "Test", exactly one section entry at level 1,
exactly one figure labelled "fig:1", exactly one equation labelled "eq:1"
with the label command removed from its body, and citation count 1. -/
theorem claimC8_latexExtraction :
    (parseLatex "doc.tex" latexSample).title = some "Test" ∧
    (parseLatex "doc.tex" latexSample).sections = [⟨"section", 1, "Intro"⟩] ∧
    (parseLatex "doc.tex" latexSample).figures = [⟨"Fig", "fig:1"⟩] ∧
    (parseLatex "doc.tex" latexSample).equations = [⟨"E = mc^2", "eq:1"⟩] ∧
    (parseLatex "doc.tex" latexSample).citation_count = 1 := by decide

/-- C9 fails as stated: on a document without creation/modification
timestamps and without an extractable `word/document.xml`, the word-document
extractor emits the `created` and `modified` metadata keys with the value
`null` (not omitted, not an empty string), and sets `xml_content` to `null`
as well. -/
theorem claimC9_counterexample :
    ("created", StrOrNull.null) ∈ (parseDocx "f.docx" emptyDocx).metadata ∧
    ("modified", StrOrNull.null) ∈ (parseDocx "f.docx" emptyDocx).metadata ∧
    (parseDocx "f.docx" emptyDocx).xml_content = StrOrNull.null ∧
    ¬ ("created", StrOrNull.str "") ∈ (parseDocx "f.docx" emptyDocx).metadata := by
  decide

/-- C9 (amended): for the word-document extractor, the author/title/subject
metadata values are always strings (defaulting to the empty string when the
source provides none), while the `created`/`modified` metadata keys — always
present — are `null` exactly when the source lacks the timestamp, and
`xml_content` is `null` exactly when no raw XML payload could be extracted;
consumers must tolerate `null` in those three places. -/
theorem claimC9_nullability (filePath : String) (doc : PyDocxDocument) :
    (parseDocx filePath doc).metadata.lookup "author" =
      some (.str (doc.coreProperties.author.getD "")) ∧
    (parseDocx filePath doc).metadata.lookup "title" =
      some (.str (doc.coreProperties.title.getD "")) ∧
    (parseDocx filePath doc).metadata.lookup "subject" =
      some (.str (doc.coreProperties.subject.getD "")) ∧
    (parseDocx filePath doc).metadata.lookup "created" =
      some (match doc.coreProperties.created with
        | some s => StrOrNull.str s
        | none => StrOrNull.null) ∧
    (parseDocx filePath doc).metadata.lookup "modified" =
      some (match doc.coreProperties.modified with
        | some s => StrOrNull.str s
        | none => StrOrNull.null) ∧
    ((parseDocx filePath doc).xml_content = StrOrNull.null ↔ doc.xmlDocument = none) := by
  refine ⟨rfl, rfl, rfl, rfl, rfl, ?_⟩
  cases h : doc.xmlDocument with
  | none => simp [parseDocx, h]
  | some s => simp [parseDocx, h]
